import Mathlib

/-!
Shallow embedding of the asr-hub audio-preprocessing core
(`src/utils/audio.py`, `src/preprocessors/noise_reduction.py`,
`src/core/pipeline.py`) and proofs of the frozen claims about it.

Modelling conventions:
* a Python `bytes` buffer is a `List Nat` whose entries are meant to be `< 256`;
* Python ints are `Int`, Python floats are `ℚ` where the code only does
  exact-representable arithmetic (config values, index computations) and `ℝ`
  where genuine transcendental arithmetic happens (the sigmoid soft mask);
* a fallible Python function (one that may raise) returns `Except ASRError _`;
* numpy 1-D vs 2-D arrays are the two constructors of `SampleMatrix`.
-/

namespace ASRHub

/-- One byte of a Python `bytes` buffer (intended `< 256`). -/
abbrev Byte := Nat

/-- A Python `bytes` buffer. -/
abbrev Bytes := List Nat

/-- The exception classes of `src/utils/exceptions.py` that the modelled code
can raise (string messages are not modelled). -/
inductive ASRError where
  | invalidAudioFormat : ASRError
  | audioProcessing : ASRError
  | preprocessorNotFound : ASRError
  | valueError : ASRError
deriving DecidableEq, Repr
-- `valueError` models a numpy-raised builtin `ValueError` escaping uncaught.

/-! ## PCM codec: `bytes_to_numpy` / `numpy_to_bytes` (int16 path) -/

/-- Little-endian decoding of one 16-bit signed sample from two bytes,
as `np.frombuffer(..., dtype=np.int16)` does. -/
def toInt16 (lo hi : Nat) : Int :=
  let u := lo + 256 * hi
  if u < 32768 then (u : Int) else (u : Int) - 65536

/-- `np.frombuffer(audio_bytes, dtype=np.int16)`: consecutive byte pairs become
signed 16-bit samples.  (The caller checks evenness of the length; `frombuffer`
itself raises on a trailing odd byte, which `bytes_to_numpy` models by an
explicit length test.) -/
def decodeInt16Samples : Bytes → List Int
  | lo :: hi :: rest => toInt16 lo hi :: decodeInt16Samples rest
  | _ => []

/-- Serialize one signed 16-bit sample back to two little-endian bytes, as
`astype(np.int16).tobytes()` does (values are reduced mod 2^16 first, matching
int16 wrap-around). -/
def encodeInt16Sample (v : Int) : Bytes :=
  let u := (v % 65536).toNat
  [u % 256, u / 256]

/-- `array.astype(np.int16).tobytes()` for a flat list of samples. -/
def encodeInt16Samples (l : List Int) : Bytes :=
  (l.map encodeInt16Sample).flatten

/-- `reshape(-1, c)` of a flat sample list whose length is `c * k`:
`k` frames of `c` interleaved samples each. -/
def toFrames (c : Nat) : Nat → List Int → List (List Int)
  | 0, _ => []
  | k + 1, l => l.take c :: toFrames c k (l.drop c)

/-- The result of `bytes_to_numpy`: a 1-D numpy array (mono) or an
N×C 2-D array stored as its list of rows (frames). -/
inductive SampleMatrix where
  | mono (samples : List Int)
  | multi (frames : List (List Int))
deriving DecidableEq, Repr

/-- Number of rows of the array: `len(a)` in numpy terms. -/
def SampleMatrix.numRows : SampleMatrix → Nat
  | .mono s => s.length
  | .multi f => f.length

/-- The flat sample sequence in memory order (row-major / interleaved). -/
def SampleMatrix.flat : SampleMatrix → List Int
  | .mono s => s
  | .multi f => f.flatten

/-- `bytes_to_numpy(audio_bytes, sample_rate, channels, dtype='int16')` from
`src/utils/audio.py`.  `np.frombuffer` raises unless the byte length is a
multiple of the 2-byte element size (the raised `ValueError` is caught and
re-raised as `InvalidAudioFormatError`); with `channels > 1` the sample list is
truncated to a whole number of frames and reshaped.  The returned sample rate
and channel count are just the arguments, so they are not modelled. -/
def bytes_to_numpy (audioBytes : Bytes) (channels : Int) :
    Except ASRError SampleMatrix :=
  if audioBytes.length % 2 ≠ 0 then
    .error .invalidAudioFormat
  else
    let samples := decodeInt16Samples audioBytes
    if 1 < channels then
      let c := channels.toNat
      let trunc := samples.take (samples.length - samples.length % c)
      .ok (.multi (toFrames c (trunc.length / c) trunc))
    else
      .ok (.mono samples)

/-- `numpy_to_bytes(audio_array, dtype='int16')` from `src/utils/audio.py`:
serialize in C-contiguous (row-major) order.  (The contiguity fix-up is a
memory-layout detail with no observable effect on the produced bytes.) -/
def numpy_to_bytes (a : SampleMatrix) : Bytes :=
  encodeInt16Samples a.flat

/-- Truncation toward zero of an exact rational, i.e. Python `int(q)` /
numpy `astype` from float to an integer dtype (in-range case). -/
def truncQ (q : ℚ) : Int :=
  if 0 ≤ q then ⌊q⌋ else ⌈q⌉

/-- `convert_to_mono` from `src/utils/audio.py`, 2-D case: per-frame arithmetic
mean (`np.mean(axis=1)`) followed by `astype` back to int16 (truncation toward
zero of the float mean). -/
def convert_to_mono (frames : List (List Int)) : List Int :=
  frames.map (fun f : List Int => truncQ ((f.sum : ℚ) / (f.length : ℚ)))

/-! ## Resampler: `_resample_audio` -/

/-- A numpy array of float-valued samples (floats modelled as exact rationals):
1-D (mono) or 2-D N×C (rows = frames). -/
inductive RMatrix where
  | mono (samples : List ℚ)
  | multi (frames : List (List ℚ))
deriving DecidableEq, Repr

/-- `len(a)`: number of rows. -/
def RMatrix.numRows : RMatrix → Nat
  | .mono s => s.length
  | .multi f => f.length

/-- `np.linspace(0, stop, num)`: `num` evenly spaced points from 0 to `stop`
(a single point is 0; no points for `num = 0`). -/
def linspace (stop : ℚ) (num : Nat) : List ℚ :=
  (List.range num).map (fun i : ℕ => stop * (i : ℚ) / ((num : ℚ) - 1))

/-- `np.interp(t, xp, fp)` where `xp = [0, 1, ..., len(fp) - 1]` (which is what
`old_indices = np.linspace(0, n-1, n)` produces): clamp outside the span,
piecewise-linear inside. -/
def interpAt (fp : List ℚ) (t : ℚ) : ℚ :=
  if t ≤ 0 then fp.headD 0
  else if (fp.length : ℚ) - 1 ≤ t then fp.getLastD 0
  else
    let j := (⌊t⌋).toNat
    let a := fp.getD j 0
    let b := fp.getD (j + 1) 0
    a + (t - j) * (b - a)

/-- Column `ch` of a 2-D array stored by rows. -/
def column (frames : List (List ℚ)) (ch : Nat) : List ℚ :=
  frames.map (fun r => r.getD ch 0)

/-- `_resample_audio(audio_array, original_rate, target_rate)` from
`src/utils/audio.py`.  Equal rates return the input at once.  Otherwise
`new_length = int(len * ratio)` (Python `int` truncates toward zero; `toNat`
reflects that `np.linspace` needs a nonnegative count, which holds for
positive rates), and each output position is linearly interpolated, per
channel for 2-D input.  `np.interp` raises a `ValueError` when its array of
sample points is empty, i.e. when the input has no rows.  The final
`.astype(audio_array.dtype)` is the identity on the float view modelled here
(for integer dtypes it truncates each value, which affects no claim about
shapes or the equal-rate case). -/
def _resample_audio (audio : RMatrix) (originalRate targetRate : Int) :
    Except ASRError RMatrix :=
  if originalRate = targetRate then .ok audio
  else
    let n := audio.numRows
    if n = 0 then .error .valueError
    else
      let ratio : ℚ := (targetRate : ℚ) / (originalRate : ℚ)
      let newLength := (truncQ ((n : ℚ) * ratio)).toNat
      let newIndices := linspace ((n : ℚ) - 1) newLength
      match audio with
      | .mono s => .ok (.mono (newIndices.map (interpAt s)))
      | .multi f =>
          let c := (f.headD []).length
          .ok (.multi (newIndices.map
            (fun t => (List.range c).map (fun ch => interpAt (column f ch) t))))

/-! ## NoiseReductionProcessor (`src/preprocessors/noise_reduction.py`)

The signal path multiplies integer samples by a sigmoid-valued mask, so its
values live in ℝ (floats modelled as exact reals). -/

/-- Logistic sigmoid, written as the code writes it: `1 / (1 + exp(-x))`. -/
noncomputable def sigmoid (x : ℝ) : ℝ := 1 / (1 + Real.exp (-x))

/-- Per-sample body of `NoiseReductionProcessor._create_soft_mask`:
`ratio = energy / (threshold + 1e-8)`, `mask = sigmoid(5 * (ratio - 1))`,
then `np.clip(mask, 0.1, 1.0)` (max with the floor, min with the ceiling).
Lean division by zero yields 0 where IEEE floats would give ±inf/nan; that
case (`threshold = -1e-8` exactly) is unreachable from the code, whose
thresholds are nonnegative. -/
noncomputable def soft_mask_sample (energy threshold : ℝ) : ℝ :=
  let ratio := energy / (threshold + 1 / 10 ^ 8)
  let mask := sigmoid (5 * (ratio - 1))
  min (max mask (1 / 10)) 1

/-- `_create_soft_mask` over a whole energy vector. -/
noncomputable def _create_soft_mask (energy : List ℝ) (threshold : ℝ) :
    List ℝ :=
  energy.map (fun e => soft_mask_sample e threshold)

/-- The state of a constructed `NoiseReductionProcessor` (its config fields as
read in `__init__`). -/
structure NoiseReductionProcessor where
  enabled : Bool
  strength : ℚ
  sample_rate : Int
  frame_length : Int
  hop_length : Int
deriving DecidableEq, Repr

/-- `NoiseReductionProcessor.__init__`: read the config fields, then the base
class runs `_initialize`, which raises `AudioProcessingError` (the spec's
ConfigurationError kind) when `strength ∉ [0, 1]` or `sample_rate ≤ 0`;
construction only succeeds past both checks. -/
def NoiseReductionProcessor.make (enabled : Bool) (strength : ℚ)
    (sample_rate frame_length hop_length : Int) :
    Except ASRError NoiseReductionProcessor :=
  if ¬ (0 ≤ strength ∧ strength ≤ 1) then .error .audioProcessing
  else if sample_rate ≤ 0 then .error .audioProcessing
  else .ok ⟨enabled, strength, sample_rate, frame_length, hop_length⟩

/-- The moving-average window `max(3, int(self.sample_rate * 0.001))` of
`_apply_smoothing` (≈1 ms).  The double closest to 0.001 lies just above
1/1000, so `int(rate * 0.001)` equals `truncQ (rate / 1000)` for every integer
rate of realistic magnitude; the exact rational form is used. -/
def smoothingWindow (p : NoiseReductionProcessor) : Nat :=
  (max 3 (truncQ ((p.sample_rate : ℚ) / 1000))).toNat

/-- `NoiseReductionProcessor._apply_smoothing`: signals no longer than the
window are returned untouched; otherwise edge-pad by `window // 2` on both
sides, take the `'valid'`-mode moving average (window-sum divided by the
window size), and trim back to the input length. -/
noncomputable def NoiseReductionProcessor._apply_smoothing
    (p : NoiseReductionProcessor) (audio : List ℝ) : List ℝ :=
  let w := smoothingWindow p
  if audio.length ≤ w then audio
  else
    let pad := w / 2
    let padded := List.replicate pad (audio.headD 0) ++ audio
      ++ List.replicate pad (audio.getLastD 0)
    let smoothed := (List.range (padded.length + 1 - w)).map
      (fun i => ((padded.drop i).take w).sum / (w : ℝ))
    smoothed.take audio.length

/-- `np.mean`: sum over length.  On an empty array numpy produces nan (with a
warning, no exception); the Lean value 0 stands in for it, and no claim proved
here lets that value reach an output sample. -/
noncomputable def npMean (l : List ℝ) : ℝ := l.sum / (l.length : ℝ)

/-- `NoiseReductionProcessor._apply_noise_reduction`: energy = |samples|,
noise level from the first `min(len // 10, sample_rate // 2)` samples (falling
back to a tenth of the global mean when that window is empty), threshold
`noise_level * (1 + strength)`, soft mask, elementwise multiply, smooth.
Python `//` is floor division (`Int.fdiv`); `len // 10` is nonnegative, so
plain truncating division agrees there. -/
noncomputable def NoiseReductionProcessor._apply_noise_reduction
    (p : NoiseReductionProcessor) (audio : List ℝ) : List ℝ :=
  let energy := audio.map (fun x => |x|)
  let noiseSampleSize : Int := min ((audio.length : Int) / 10) (p.sample_rate.fdiv 2)
  let noiseLevel :=
    if 0 < noiseSampleSize then npMean (energy.take noiseSampleSize.toNat)
    else npMean energy * (1 / 10)
  let threshold := noiseLevel * (1 + (p.strength : ℝ))
  let mask := _create_soft_mask energy threshold
  let processed := List.zipWith (· * ·) audio mask
  p._apply_smoothing processed

/-- Python `x or d` for an optional integer argument: `None` and `0` are falsy
and select the default. -/
def orDefault (v : Option Int) (d : Int) : Int :=
  match v with
  | none => d
  | some x => if x = 0 then d else x

/-- Whether the decoded array is 2-D (`len(audio_array.shape) > 1`). -/
def SampleMatrix.isMulti : SampleMatrix → Bool
  | .mono _ => false
  | .multi _ => true

/-- `astype(np.int16)` on a float sample: truncation toward zero.  (numpy
leaves out-of-range conversions platform-defined; no claim proved here
depends on those values, only on how many samples there are.) -/
noncomputable def realToInt16 (x : ℝ) : Int :=
  if 0 ≤ x then ⌊x⌋ else ⌈x⌉

/-- `NoiseReductionProcessor.process`.  A disabled stage returns the input
object before the `try` block.  Otherwise: decode (the surrounding `except`
re-raises any failure as `AudioProcessingError`), average 2-D input down to
mono, denoise, duplicate the mono result across the channels when the input
was 2-D (`np.column_stack`), and re-encode as int16.  The effective sample
rate `original_sample_rate or self.sample_rate` is passed to `bytes_to_numpy`,
which merely echoes it back, so it does not appear here. -/
noncomputable def NoiseReductionProcessor.process (p : NoiseReductionProcessor)
    (audioBytes : Bytes) (originalSampleRate originalChannels : Option Int) :
    Except ASRError Bytes :=
  if p.enabled then
    let channels := orDefault originalChannels 1
    match bytes_to_numpy audioBytes channels with
    | .error _ => .error .audioProcessing
    | .ok m =>
      let monoArray : List Int :=
        match m with
        | .mono s => s
        | .multi f => convert_to_mono f
      let processedMono :=
        p._apply_noise_reduction (monoArray.map (fun v : Int => (v : ℝ)))
      if m.isMulti = true ∧ 1 < channels then
        .ok (encodeInt16Samples
          ((processedMono.map
            (fun v => List.replicate channels.toNat (realToInt16 v))).flatten))
      else
        .ok (encodeInt16Samples (processedMono.map realToInt16))
  else
    .ok audioBytes

/-! ## AudioNormalizer (`src/preprocessors/noise_reduction.py`, volume step) -/

/-- `np.abs` on an int16 value: the minimum wraps onto itself
(`|-32768| = -32768` in int16 arithmetic). -/
def int16Abs (v : Int) : Int :=
  if v = -32768 then -32768 else |v|

/-- The state of a constructed `AudioNormalizer`. -/
structure AudioNormalizer where
  target_sample_rate : Int
  target_channels : Int
  normalize_volume : Bool
  target_volume : ℚ
deriving DecidableEq, Repr

/-- `AudioNormalizer._normalize_volume`: decode using the *target* rate and
channel count, find the peak absolute amplitude (`np.max` raises `ValueError`
on a zero-size array, which the local `except` re-raises as
`AudioProcessingError`), and when the peak is positive scale every sample by
`target_volume * 32767 / peak`, clip into the int16 range, truncate to int16
and re-encode; a zero peak re-encodes the samples untouched.  The dead
`if scale_factor > 1.0: scale_factor = min(scale_factor, target_max /
current_max)` recomputes the same value and is kept verbatim.  Scaling,
clipping and `tobytes` act elementwise in row-major order, so they are applied
to the flat sample sequence. -/
def AudioNormalizer._normalize_volume (a : AudioNormalizer)
    (audioBytes : Bytes) : Except ASRError Bytes :=
  match bytes_to_numpy audioBytes a.target_channels with
  | .error _ => .error .audioProcessing
  | .ok m =>
    match m.flat with
    | [] => .error .audioProcessing
    | v :: vs =>
      let currentMax : Int := (vs.map int16Abs).foldl max (int16Abs v)
      if 0 < currentMax then
        let targetMax : ℚ := a.target_volume * 32767
        let scaleFactor : ℚ := targetMax / (currentMax : ℚ)
        let scaleFactor :=
          if 1 < scaleFactor then min scaleFactor (targetMax / (currentMax : ℚ))
          else scaleFactor
        let normalized := m.flat.map (fun s : Int =>
          truncQ (min (max ((s : ℚ) * scaleFactor) (-32768)) 32767))
        .ok (encodeInt16Samples normalized)
      else
        .ok (encodeInt16Samples m.flat)

/-! ## Pipeline (`src/core/pipeline.py`) -/

/-- A pipeline stage, identified with its `AudioPreprocessor.process` function
over the byte buffer and the two optional format hints
(`original_sample_rate`, `original_channels`). -/
structure Stage where
  process : Bytes → Option Int → Option Int → Except ASRError Bytes

/-- `AudioPipeline`: the ordered processor chain. -/
structure AudioPipeline where
  processors : List Stage

/-- The body of `AudioPipeline.process`:
`result = audio_bytes; for processor in self.processors:
result = processor.process(result, **kwargs)`.  Every stage receives the same
keyword hints; a raised error aborts the loop. -/
def runProcessors (l : List Stage) (b : Bytes) (r c : Option Int) :
    Except ASRError Bytes :=
  match l with
  | [] => .ok b
  | s :: rest => (s.process b r c).bind (fun y => runProcessors rest y r c)

/-- `AudioPipeline.process`: the loop above inside a `try` that re-raises any
stage failure as a pipeline-level `AudioProcessingError`. -/
def AudioPipeline.process (pl : AudioPipeline) (b : Bytes) (r c : Option Int) :
    Except ASRError Bytes :=
  match runProcessors pl.processors b r c with
  | .ok y => .ok y
  | .error _ => .error .audioProcessing

/-- `AudioPipelineManager`: name → registered processor. -/
structure AudioPipelineManager where
  registered_processors : List (String × Stage)

/-- `AudioPipelineManager.get_processor`: lookup by name, raising
`PreprocessorError` for an unknown name. -/
def AudioPipelineManager.get_processor (m : AudioPipelineManager)
    (name : String) : Except ASRError Stage :=
  match m.registered_processors.lookup name with
  | none => .error .preprocessorNotFound
  | some s => .ok s

/-- `AudioPipelineManager.create_pipeline`: an empty name list short-circuits
to `AudioPipeline([])` before any registry access; otherwise each name is
resolved in order. -/
def AudioPipelineManager.create_pipeline (m : AudioPipelineManager)
    (names : List String) : Except ASRError AudioPipeline :=
  if names.isEmpty then .ok ⟨[]⟩
  else (names.mapM m.get_processor).map AudioPipeline.mk

/-- A stage whose failures follow the documented error discipline
(§4.3/§7 of the spec): `process` only ever raises `AudioProcessingError`. -/
def Stage.WellBehaved (s : Stage) : Prop :=
  ∀ b r c e, s.process b r c = .error e → e = .audioProcessing

/-- Whether a fallible computation returned normally (no exception). -/
def isSuccess {ε α : Type _} : Except ε α → Bool
  | .ok _ => true
  | .error _ => false

/-! ## Codec lemmas -/

theorem encodeInt16Samples_cons (v : Int) (l : List Int) :
    encodeInt16Samples (v :: l) = encodeInt16Sample v ++ encodeInt16Samples l := by
  simp [encodeInt16Samples]

theorem encodeInt16Sample_toInt16 (lo hi : Nat) (hlo : lo < 256)
    (hhi : hi < 256) : encodeInt16Sample (toInt16 lo hi) = [lo, hi] := by
  have h1 : ((toInt16 lo hi) % 65536).toNat = lo + 256 * hi := by
    simp only [toInt16]
    split <;> omega
  simp only [encodeInt16Sample, h1, List.cons.injEq, and_true]
  omega

/-- Encoding after decoding restores a well-formed even-length byte buffer. -/
theorem encode_decode : ∀ (b : Bytes), (∀ x ∈ b, x < 256) →
    b.length % 2 = 0 → encodeInt16Samples (decodeInt16Samples b) = b
  | [], _, _ => rfl
  | [_], _, h => by simp at h
  | lo :: hi :: rest, hwf, he => by
    have ih := encode_decode rest (fun x hx => hwf x (by simp [hx]))
      (by simp only [List.length_cons] at he; omega)
    simp only [decodeInt16Samples, encodeInt16Samples_cons, ih,
      encodeInt16Sample_toInt16 lo hi (hwf lo (by simp)) (hwf hi (by simp))]
    rfl

theorem decodeInt16Samples_length : ∀ (b : Bytes),
    (decodeInt16Samples b).length = b.length / 2
  | [] => rfl
  | [_] => by simp [decodeInt16Samples]
  | _ :: _ :: rest => by
    simp only [decodeInt16Samples, List.length_cons,
      decodeInt16Samples_length rest]
    omega

theorem encodeInt16Samples_length (l : List Int) :
    (encodeInt16Samples l).length = 2 * l.length := by
  induction l with
  | nil => rfl
  | cons v t ih =>
    simp [encodeInt16Samples_cons, List.length_append, ih, encodeInt16Sample]
    omega

theorem toFrames_length (c : Nat) : ∀ (k : Nat) (l : List Int),
    (toFrames c k l).length = k
  | 0, _ => rfl
  | k + 1, l => by simp [toFrames, toFrames_length c k]

theorem toFrames_flatten (c : Nat) : ∀ (k : Nat) (l : List Int),
    l.length = c * k → (toFrames c k l).flatten = l
  | 0, l, h => by
    have : l = [] := List.eq_nil_of_length_eq_zero (by omega)
    simp [toFrames, this]
  | k + 1, l, h => by
    simp only [toFrames, List.flatten_cons]
    rw [toFrames_flatten c k (l.drop c)
      (by rw [List.length_drop, h, Nat.mul_succ]; omega)]
    exact List.take_append_drop c l

/-- Closed form of a successful multi-channel `bytes_to_numpy`: the sample
sequence is truncated to `channels * (samples / channels)` entries and cut
into `samples / channels` frames. -/
theorem bytes_to_numpy_multi_spec (b : Bytes) (channels : Int)
    (hch : 1 < channels) (h2 : b.length % 2 = 0) :
    bytes_to_numpy b channels = .ok (.multi (toFrames channels.toNat
      ((b.length / 2) / channels.toNat)
      ((decodeInt16Samples b).take
        (channels.toNat * ((b.length / 2) / channels.toNat))))) := by
  have hcpos : 0 < channels.toNat := by omega
  have hslen := decodeInt16Samples_length b
  have hmd := Nat.mod_add_div (b.length / 2) channels.toNat
  simp only [bytes_to_numpy, h2, ne_eq, not_true_eq_false, if_false,
    if_pos hch]
  rw [hslen]
  rw [show b.length / 2 - (b.length / 2) % channels.toNat
      = channels.toNat * ((b.length / 2) / channels.toNat) by omega]
  rw [show ((decodeInt16Samples b).take
        (channels.toNat * ((b.length / 2) / channels.toNat))).length
      = channels.toNat * ((b.length / 2) / channels.toNat) by
    rw [List.length_take, hslen]; omega]
  rw [Nat.mul_div_cancel_left _ hcpos]

theorem linspace_length (stop : ℚ) (num : Nat) :
    (linspace stop num).length = num := by
  unfold linspace
  rw [List.length_map, List.length_range]

/-- Row count of a resample between distinct rates on nonempty input:
the truncated `len * (r2 / r1)`. -/
theorem resample_numRows (x : RMatrix) (r1 r2 : Int) (hr : r1 ≠ r2)
    (hne : x.numRows ≠ 0) :
    (_resample_audio x r1 r2).map RMatrix.numRows
      = .ok (truncQ ((x.numRows : ℚ) * ((r2 : ℚ) / (r1 : ℚ)))).toNat := by
  simp only [_resample_audio, if_neg hr, if_neg hne]
  cases x with
  | mono s =>
    simp only [Except.map, RMatrix.numRows, List.length_map, linspace_length]
  | multi f =>
    simp only [Except.map, RMatrix.numRows, List.length_map, linspace_length]

/-- Equal rates short-circuit to the unchanged input. -/
theorem resample_same_rate (x : RMatrix) (r : Int) :
    _resample_audio x r r = .ok x := by
  simp [_resample_audio]

/-- `foldl max` over an all-zero integer list, starting from 0, is 0. -/
theorem foldl_max_all_zero : ∀ (l : List Int), (∀ x ∈ l, x = 0) →
    l.foldl max 0 = 0
  | [], _ => rfl
  | x :: t, h => by
    rw [List.foldl_cons, h x (by simp), max_self]
    exact foldl_max_all_zero t (fun y hy => h y (by simp [hy]))

/-- All-zero bytes decode to all-zero samples. -/
theorem decodeInt16Samples_all_zero : ∀ (b : Bytes), (∀ x ∈ b, x = 0) →
    ∀ v ∈ decodeInt16Samples b, v = 0
  | [], _, v, hv => by simp [decodeInt16Samples] at hv
  | [_], _, v, hv => by simp [decodeInt16Samples] at hv
  | lo :: hi :: rest, hz, v, hv => by
    simp only [decodeInt16Samples, List.mem_cons] at hv
    rcases hv with h | h
    · have hlo : lo = 0 := hz lo (by simp)
      have hhi : hi = 0 := hz hi (by simp)
      simp [h, toInt16, hlo, hhi]
    · exact decodeInt16Samples_all_zero rest (fun x hx => hz x (by simp [hx])) v h

/-- Closed form of a successful mono `bytes_to_numpy`. -/
theorem bytes_to_numpy_mono_spec (b : Bytes) (channels : Int)
    (hch : ¬ 1 < channels) (h2 : b.length % 2 = 0) :
    bytes_to_numpy b channels = .ok (.mono (decodeInt16Samples b)) := by
  simp only [bytes_to_numpy, h2, ne_eq, not_true_eq_false, if_false,
    if_neg hch]

/-- An even-length buffer always decodes. -/
theorem bytes_to_numpy_ok (b : Bytes) (channels : Int)
    (h2 : b.length % 2 = 0) :
    ∃ mtx, bytes_to_numpy b channels = .ok mtx := by
  by_cases hch : 1 < channels
  · exact ⟨_, bytes_to_numpy_multi_spec b channels hch h2⟩
  · exact ⟨_, bytes_to_numpy_mono_spec b channels hch h2⟩

/-! ## Noise-reduction length lemmas -/

theorem smoothingWindow_ge (p : NoiseReductionProcessor) :
    3 ≤ smoothingWindow p := by
  unfold smoothingWindow
  have h : (3 : ℤ) ≤ max 3 (truncQ ((p.sample_rate : ℚ) / 1000)) :=
    le_max_left _ _
  omega

theorem apply_smoothing_length (p : NoiseReductionProcessor) (x : List ℝ) :
    (p._apply_smoothing x).length = x.length := by
  simp only [NoiseReductionProcessor._apply_smoothing]
  by_cases hle : x.length ≤ smoothingWindow p
  · rw [if_pos hle]
  · rw [if_neg hle]
    have h3 := smoothingWindow_ge p
    simp only [List.length_take, List.length_map, List.length_range,
      List.length_append, List.length_replicate]
    omega

theorem create_soft_mask_length (e : List ℝ) (t : ℝ) :
    (_create_soft_mask e t).length = e.length := by
  simp [_create_soft_mask]

theorem apply_noise_reduction_length (p : NoiseReductionProcessor)
    (a : List ℝ) : (p._apply_noise_reduction a).length = a.length := by
  simp only [NoiseReductionProcessor._apply_noise_reduction]
  rw [apply_smoothing_length]
  simp [create_soft_mask_length, List.length_zipWith, List.length_map]

/-! ## Theorems -/

/-- C2: for every well-formed byte buffer whose length is an exact multiple of
`channel_count × sample_width` (sample width 2 for int16), encoding the result
of decoding it with the same width and channel count yields the buffer back:
`numpy_to_bytes (bytes_to_numpy b) = b`. -/
theorem decode_encode_roundtrip (b : Bytes) (channels : Int)
    (hc : 0 < channels) (hwf : ∀ x ∈ b, x < 256)
    (hlen : b.length % (2 * channels.toNat) = 0) :
    (bytes_to_numpy b channels).map numpy_to_bytes = .ok b := by
  have hcpos : 0 < channels.toNat := by omega
  have hd : (2 : ℕ) ∣ 2 * channels.toNat := Dvd.intro _ rfl
  have h2 : b.length % 2 = 0 := by
    have hmm := Nat.mod_mod_of_dvd b.length hd
    rw [hlen] at hmm
    omega
  obtain ⟨m, hm⟩ : (2 * channels.toNat) ∣ b.length := Nat.dvd_of_mod_eq_zero hlen
  have hslen : (decodeInt16Samples b).length = channels.toNat * m := by
    rw [decodeInt16Samples_length, hm, Nat.mul_assoc]
    exact Nat.mul_div_cancel_left _ (by norm_num)
  have hmod : (decodeInt16Samples b).length % channels.toNat = 0 := by
    rw [hslen]; exact Nat.mul_mod_right _ _
  have hdivc : (decodeInt16Samples b).length / channels.toNat = m := by
    rw [hslen]; exact Nat.mul_div_cancel_left _ hcpos
  by_cases hch : 1 < channels
  · simp only [bytes_to_numpy, h2, ne_eq, not_true_eq_false, if_false,
      if_pos hch, hmod, Nat.sub_zero, List.take_length]
    simp only [Except.map, numpy_to_bytes, SampleMatrix.flat, hdivc]
    rw [toFrames_flatten channels.toNat m (decodeInt16Samples b) hslen,
      encode_decode b hwf h2]
  · simp only [bytes_to_numpy, h2, ne_eq, not_true_eq_false, if_false,
      if_neg hch]
    simp only [Except.map, numpy_to_bytes, SampleMatrix.flat]
    rw [encode_decode b hwf h2]

/-- Witness for C2 at a concrete stereo buffer of two whole frames. -/
theorem decode_encode_roundtrip_witness :
    (bytes_to_numpy [1, 2, 3, 4, 5, 6, 7, 8] 2).map numpy_to_bytes
      = .ok [1, 2, 3, 4, 5, 6, 7, 8] :=
  decode_encode_roundtrip _ 2 (by decide) (by decide) (by decide)

/-- C7 counterexample: the 3-byte buffer `b"\x00\x00\x00"` violates the frame
invariant for 2 channels of int16 (3 is not a multiple of 4), yet decoding
does not truncate it to the nearest whole frame and succeed — `np.frombuffer`
raises on the partial trailing sample and `bytes_to_numpy` fails with
`InvalidAudioFormatError`. -/
theorem bytes_to_numpy_odd_fails :
    bytes_to_numpy [0, 0, 0] 2 = .error .invalidAudioFormat := rfl

/-- C7 amended: truncation-to-whole-frames happens at sample granularity.  For
a multi-channel decode whose byte length is a multiple of the 2-byte sample
width, the sample sequence is truncated down to `⌊samples / channels⌋` whole
frames — never padded or rounded up, excess trailing samples dropped — and
decoding succeeds; a byte length that is not a multiple of the sample width
makes decoding fail with a format error instead of truncating. -/
theorem bytes_to_numpy_truncates (b : Bytes) (channels : Int)
    (hch : 1 < channels) :
    (2 ∣ b.length →
      (bytes_to_numpy b channels).map (fun m => (m.numRows, m.flat))
        = .ok ((b.length / 2) / channels.toNat,
            (decodeInt16Samples b).take
              (channels.toNat * ((b.length / 2) / channels.toNat))))
    ∧ (¬ 2 ∣ b.length → bytes_to_numpy b channels = .error .invalidAudioFormat) := by
  constructor
  · intro h2
    have h2' : b.length % 2 = 0 := by obtain ⟨k, hk⟩ := h2; omega
    have hcpos : 0 < channels.toNat := by omega
    have hslen := decodeInt16Samples_length b
    have hmd := Nat.mod_add_div (b.length / 2) channels.toNat
    rw [bytes_to_numpy_multi_spec b channels hch h2']
    simp only [Except.map, SampleMatrix.numRows, SampleMatrix.flat,
      toFrames_length]
    rw [toFrames_flatten channels.toNat _ _
      (by rw [List.length_take, hslen]; omega)]
  · intro h2
    have h2' : b.length % 2 ≠ 0 := fun h => h2 (Nat.dvd_of_mod_eq_zero h)
    simp only [bytes_to_numpy, ne_eq, h2', not_false_eq_true, if_true]

/-- Witness for C7: 6 bytes = 3 samples at 2 channels truncate to 1 frame; a
3-byte buffer errors. -/
theorem bytes_to_numpy_truncates_witness :
    (bytes_to_numpy [0, 1, 0, 2, 0, 3] 2).map (fun m => (m.numRows, m.flat))
        = .ok (1, [256, 512])
    ∧ bytes_to_numpy [7, 7, 7] 2 = .error .invalidAudioFormat :=
  ⟨(bytes_to_numpy_truncates [0, 1, 0, 2, 0, 3] 2 (by decide)).1 (by decide),
   (bytes_to_numpy_truncates [7, 7, 7] 2 (by decide)).2 (by decide)⟩

/-- C5 counterexample: the empty buffer is all-zero (vacuously, every decoded
sample is zero), but the volume-normalization step does not return it
unchanged — `np.max` on the zero-size decoded array raises a `ValueError`,
surfaced as `AudioProcessingError`. -/
theorem normalize_volume_empty_fails :
    AudioNormalizer._normalize_volume ⟨16000, 1, true, 4/5⟩ []
      = .error .audioProcessing := rfl

/-- C5 amended: volume-normalizing an all-zero buffer that contains at least
one whole frame (a nonempty buffer whose byte length is a multiple of
`2 × target_channels`) returns the buffer itself — all zero, same length —
and no division occurs; the empty buffer instead raises. -/
theorem normalize_volume_zero_identity (a : AudioNormalizer) (b : Bytes)
    (hch : a.target_channels = 1 ∨ a.target_channels = 2) (hne : b ≠ [])
    (hlen : b.length % (2 * a.target_channels.toNat) = 0)
    (hzero : ∀ x ∈ b, x = 0) :
    a._normalize_volume b = .ok b := by
  have hc : 0 < a.target_channels := by rcases hch with h | h <;> simp [h]
  have hcpos : 0 < a.target_channels.toNat := by omega
  have hd : (2 : ℕ) ∣ 2 * a.target_channels.toNat := Dvd.intro _ rfl
  have h2 : b.length % 2 = 0 := by
    have hmm := Nat.mod_mod_of_dvd b.length hd
    rw [hlen] at hmm
    omega
  obtain ⟨m, hm⟩ : (2 * a.target_channels.toNat) ∣ b.length :=
    Nat.dvd_of_mod_eq_zero hlen
  have hbpos : 0 < b.length := List.length_pos.mpr hne
  have hslen : (decodeInt16Samples b).length = a.target_channels.toNat * m := by
    rw [decodeInt16Samples_length, hm, Nat.mul_assoc]
    exact Nat.mul_div_cancel_left _ (by norm_num)
  have hmpos : 0 < m := by
    rcases Nat.eq_zero_or_pos m with h | h
    · rw [h, Nat.mul_zero] at hm; omega
    · exact h
  -- the decoded matrix and its flat view
  have hflat : ∃ mtx, bytes_to_numpy b a.target_channels = .ok mtx
      ∧ mtx.flat = decodeInt16Samples b := by
    by_cases hch1 : 1 < a.target_channels
    · refine ⟨_, bytes_to_numpy_multi_spec b _ hch1 h2, ?_⟩
      have hdivc : (b.length / 2) / a.target_channels.toNat = m := by
        rw [← decodeInt16Samples_length, hslen]
        exact Nat.mul_div_cancel_left _ hcpos
      simp only [SampleMatrix.flat, hdivc]
      rw [toFrames_flatten _ _ _ (by rw [List.length_take, hslen]; omega)]
      rw [List.take_of_length_le (by rw [hslen])]
    · refine ⟨.mono (decodeInt16Samples b), ?_, rfl⟩
      simp only [bytes_to_numpy, h2, ne_eq, not_true_eq_false, if_false,
        if_neg hch1]
  obtain ⟨mtx, hmtx, hflateq⟩ := hflat
  have hallzero : ∀ v ∈ mtx.flat, v = 0 := by
    rw [hflateq]; exact decodeInt16Samples_all_zero b hzero
  have hflatne : mtx.flat ≠ [] := by
    rw [hflateq]
    intro h
    have := congrArg List.length h
    rw [hslen] at this
    simp at this
    omega
  have hencode : encodeInt16Samples mtx.flat = b := by
    rw [hflateq]; exact encode_decode b (fun x hx => by rw [hzero x hx]; omega) h2
  simp only [AudioNormalizer._normalize_volume, hmtx]
  split
  · next hnil => exact absurd hnil hflatne
  · next v vs hvvs =>
    have hv0 : v = 0 := hallzero v (by rw [hvvs]; simp)
    have hvs0 : ∀ x ∈ vs, x = 0 := fun x hx =>
      hallzero x (by rw [hvvs]; simp [hx])
    have hmax : (vs.map int16Abs).foldl max (int16Abs v) = 0 := by
      rw [hv0]
      have habs0 : int16Abs 0 = 0 := rfl
      rw [habs0]
      exact foldl_max_all_zero (vs.map int16Abs)
        (fun x hx => by
          obtain ⟨y, hy, hyx⟩ := List.mem_map.mp hx
          rw [← hyx, hvs0 y hy]; rfl)
    rw [hmax]
    simp only [lt_irrefl, if_false, ← hvvs, hencode]

/-- Witness for C5 (amended) at a concrete one-frame zero buffer. -/
theorem normalize_volume_zero_identity_witness :
    AudioNormalizer._normalize_volume ⟨16000, 1, true, 4/5⟩ [0, 0]
      = .ok [0, 0] :=
  normalize_volume_zero_identity ⟨16000, 1, true, 4/5⟩ [0, 0]
    (Or.inl rfl) (by decide) (by decide) (by decide)

/-- C1 counterexample: resampling 5 samples from rate 2 to rate 3 yields
`int(5 * 1.5) = 7` samples, while the claimed `round(5 * 3 / 2) = 8` — the
code truncates the target length, it does not round. -/
theorem resample_length_counterexample :
    (_resample_audio (.mono (List.replicate 5 0)) 2 3).map RMatrix.numRows
        = .ok 7
    ∧ (round ((5 : ℚ) * 3 / 2)).toNat = 8 := by
  constructor
  · rw [resample_numRows _ 2 3 (by decide) (by simp [RMatrix.numRows])]
    norm_num [RMatrix.numRows, truncQ]
    decide
  · rw [round_eq]
    norm_num
    decide

/-- C1 amended: for positive rates and a nonempty matrix (empty input makes
`np.interp` raise when the rates differ), the resampled row count is the
*truncation* `int(len * r2 / r1)` of the exact ratio — floor, not round — and
equal rates return the input unchanged. -/
theorem resample_length_law (x : RMatrix) (r1 r2 : Int)
    (h1 : 0 < r1) (h2 : 0 < r2) (hne : x.numRows ≠ 0) :
    (_resample_audio x r1 r2).map RMatrix.numRows
        = .ok (truncQ ((x.numRows : ℚ) * r2 / r1)).toNat
    ∧ _resample_audio x r1 r1 = .ok x := by
  constructor
  · by_cases hr : r1 = r2
    · subst hr
      rw [resample_same_rate]
      simp only [Except.map]
      congr 1
      have hq : ((x.numRows : ℚ) * r1 / r1) = (x.numRows : ℚ) := by
        have h0 : (r1 : ℚ) ≠ 0 := Int.cast_ne_zero.mpr (by omega)
        field_simp
      rw [hq]
      simp [truncQ, Int.floor_natCast, Int.toNat_natCast]
    · rw [resample_numRows x r1 r2 hr hne, mul_div_assoc]
  · exact resample_same_rate x r1

/-- Witness for C1 (amended): 2 samples, rate 1 → 2, give 4 samples; equal
rates are the identity. -/
theorem resample_length_law_witness :
    (_resample_audio (.mono [(0 : ℚ), 1]) 1 2).map RMatrix.numRows = .ok 4
    ∧ _resample_audio (.mono [(0 : ℚ), 1]) 1 1 = .ok (.mono [0, 1]) := by
  constructor
  · rw [(resample_length_law (.mono [(0 : ℚ), 1]) 1 2 (by decide) (by decide)
      (by simp [RMatrix.numRows])).1]
    norm_num [RMatrix.numRows, truncQ]
    decide
  · exact (resample_length_law (.mono [(0 : ℚ), 1]) 1 1 (by decide) (by decide)
      (by simp [RMatrix.numRows])).2

theorem sigmoid_mono {x y : ℝ} (h : x ≤ y) : sigmoid x ≤ sigmoid y := by
  unfold sigmoid
  have hy : (0 : ℝ) < 1 + Real.exp (-y) := by positivity
  apply one_div_le_one_div_of_le hy
  have := Real.exp_le_exp.mpr (neg_le_neg h)
  linarith

theorem sigmoid_le_tenth {x : ℝ} (h : x ≤ -5) : sigmoid x ≤ 1 / 10 := by
  unfold sigmoid
  have h9 : (9 : ℝ) ≤ Real.exp (-x) := by
    have h5 : Real.exp 5 ≤ Real.exp (-x) := Real.exp_le_exp.mpr (by linarith)
    have h3 : (4 : ℝ) ≤ Real.exp 3 := by
      have := Real.add_one_le_exp (3 : ℝ); linarith
    have h2 : (3 : ℝ) ≤ Real.exp 2 := by
      have := Real.add_one_le_exp (2 : ℝ); linarith
    have h12 : (12 : ℝ) ≤ Real.exp 3 * Real.exp 2 := by
      nlinarith [Real.exp_pos 3, Real.exp_pos 2]
    rw [← Real.exp_add] at h12
    norm_num at h12
    linarith
  have hpos : (0 : ℝ) < 1 + Real.exp (-x) := by positivity
  rw [div_le_div_iff hpos (by norm_num)]
  linarith

/-- C4: the soft mask `clip(sigmoid(5 * (energy / (threshold + 1e-8) - 1)),
0.1, 1.0)` always lies in [0.1, 1.0], and for a fixed threshold it is
monotonically non-decreasing in the (non-negative) energy — including for
negative thresholds, where the clamp floor makes the mask constantly 0.1. -/
theorem soft_mask_bounds_mono (t e1 e2 : ℝ) (h0 : 0 ≤ e1) (h12 : e1 ≤ e2) :
    (1 / 10 ≤ soft_mask_sample e1 t ∧ soft_mask_sample e1 t ≤ 1)
    ∧ soft_mask_sample e1 t ≤ soft_mask_sample e2 t := by
  refine ⟨⟨?_, ?_⟩, ?_⟩
  · exact le_min (le_max_right _ _) (by norm_num)
  · exact min_le_right _ _
  · simp only [soft_mask_sample]
    rcases lt_trichotomy (t + 1 / 10 ^ 8) 0 with hneg | hzero | hpos
    · -- negative denominator: both ratios are ≤ 0, both sigmoids fall below
      -- the clamp floor, and the mask is 0.1 on both sides
      have hr1 : e1 / (t + 1 / 10 ^ 8) ≤ 0 :=
        div_nonpos_iff.mpr (Or.inl ⟨h0, hneg.le⟩)
      have hr2 : e2 / (t + 1 / 10 ^ 8) ≤ 0 :=
        div_nonpos_iff.mpr (Or.inl ⟨h0.trans h12, hneg.le⟩)
      have hm1 : sigmoid (5 * (e1 / (t + 1 / 10 ^ 8) - 1)) ≤ 1 / 10 :=
        sigmoid_le_tenth (by linarith)
      have hm2 : sigmoid (5 * (e2 / (t + 1 / 10 ^ 8) - 1)) ≤ 1 / 10 :=
        sigmoid_le_tenth (by linarith)
      rw [max_eq_right hm1, max_eq_right hm2]
    · -- denominator exactly zero is division by zero: both ratios are 0
      rw [hzero]
      simp
    · -- positive denominator: ratio, sigmoid and clip are all monotone
      have hr : e1 / (t + 1 / 10 ^ 8) ≤ e2 / (t + 1 / 10 ^ 8) :=
        (div_le_div_right hpos).mpr h12
      exact min_le_min (max_le_max (sigmoid_mono (by linarith)) le_rfl) le_rfl

/-- Witness for C4 at concrete energies 1 ≤ 2 and threshold 3. -/
theorem soft_mask_bounds_mono_witness :
    (1 / 10 ≤ soft_mask_sample 1 3 ∧ soft_mask_sample 1 3 ≤ 1)
    ∧ soft_mask_sample 1 3 ≤ soft_mask_sample 2 3 :=
  soft_mask_bounds_mono 3 1 2 zero_le_one one_le_two

/-- C3: a `NoiseReductionStage` constructed with `enabled = false` returns the
input buffer unchanged from `process`, for every input buffer and every
combination of optional format parameters. -/
theorem noise_reduction_disabled_identity
    (p : NoiseReductionProcessor) (b : Bytes) (r c : Option Int)
    (h : p.enabled = false) : p.process b r c = .ok b := by
  simp [NoiseReductionProcessor.process, h]

/-- Witness for C3 at a concrete disabled processor and buffer. -/
theorem noise_reduction_disabled_identity_witness :
    NoiseReductionProcessor.process ⟨false, 1/2, 16000, 2048, 512⟩
      [1, 2, 3] none none = .ok [1, 2, 3] :=
  noise_reduction_disabled_identity _ _ _ _ rfl

/-- C9: a pipeline built from an empty stage list returns every buffer
unchanged, and `create_pipeline []` yields that empty pipeline on any manager
whatsoever — the registry is never consulted. -/
theorem empty_pipeline_identity :
    ∀ (m : AudioPipelineManager) (b : Bytes) (r c : Option Int),
      m.create_pipeline [] = .ok (AudioPipeline.mk [])
      ∧ (AudioPipeline.mk []).process b r c = .ok b := by
  intro m b r c
  refine ⟨?_, ?_⟩
  · simp [AudioPipelineManager.create_pipeline]
  · simp [AudioPipeline.process, runProcessors]

/-- C6: a two-stage pipeline equals the left-to-right composition
`s2.process(s1.process(b, hints), hints)` exactly, each stage receiving the
same original format hints (for stages obeying the documented
`AudioProcessingError` discipline, so that the pipeline's own error
re-wrapping is invisible); and the chaining loop composes over arbitrary
stage-list concatenation. -/
theorem pipeline_composes :
    (∀ (s1 s2 : Stage), s1.WellBehaved → s2.WellBehaved →
      ∀ (b : Bytes) (r c : Option Int),
        (AudioPipeline.mk [s1, s2]).process b r c
          = (s1.process b r c).bind (fun y => s2.process y r c))
    ∧ ∀ (l1 l2 : List Stage) (b : Bytes) (r c : Option Int),
        runProcessors (l1 ++ l2) b r c
          = (runProcessors l1 b r c).bind (fun y => runProcessors l2 y r c) := by
  constructor
  · intro s1 s2 wb1 wb2 b r c
    simp only [AudioPipeline.process, runProcessors]
    cases h1 : s1.process b r c with
    | error e => simp [Except.bind, h1, wb1 b r c e h1]
    | ok y =>
      cases h2 : s2.process y r c with
      | error e => simp [Except.bind, h1, h2, wb2 y r c e h2]
      | ok z => simp [Except.bind, h1, h2]
  · intro l1 l2 b r c
    induction l1 generalizing b with
    | nil => simp [runProcessors, Except.bind]
    | cons s rest ih =>
      simp only [List.cons_append, runProcessors]
      cases h : s.process b r c with
      | error e => simp [Except.bind]
      | ok y => simp [Except.bind, ih y]

/-- Witness for C6 at two concrete well-behaved stages and a concrete
buffer. -/
theorem pipeline_composes_witness :
    (AudioPipeline.mk [Stage.mk (fun b _ _ => .ok b),
        Stage.mk (fun b _ _ => .ok (0 :: b))]).process [5] none none
      = ((Stage.mk (fun b _ _ => .ok b)).process [5] none none).bind
          (fun y => (Stage.mk (fun b _ _ => .ok (0 :: b))).process y none none) :=
  pipeline_composes.1 _ _ (fun _ _ _ _ h => by cases h)
    (fun _ _ _ _ h => by cases h) [5] none none

/-- C8: constructing a `NoiseReductionStage` succeeds exactly when
`strength ∈ [0.0, 1.0]` and `sample_rate > 0` — out-of-range values fail fast
at construction with the configuration-kind error (`AudioProcessingError` in
the source's exception taxonomy) — and `process` succeeds on every well-formed
(even-length) buffer for *every* processor value, even one carrying invalid
parameters: the validation runs once at construction and never at process
time. -/
theorem noise_reduction_validation :
    (∀ (enabled : Bool) (strength : ℚ)
        (sample_rate frame_length hop_length : Int),
      isSuccess (NoiseReductionProcessor.make enabled strength sample_rate
          frame_length hop_length) = true
        ↔ (0 ≤ strength ∧ strength ≤ 1 ∧ 0 < sample_rate))
    ∧ ∀ (p : NoiseReductionProcessor) (b : Bytes) (r c : Option Int),
        2 ∣ b.length → isSuccess (p.process b r c) = true := by
  constructor
  · intro en st sr fl hl
    simp only [NoiseReductionProcessor.make]
    by_cases h1 : 0 ≤ st ∧ st ≤ 1
    · rw [if_neg (not_not_intro h1)]
      by_cases h2 : sr ≤ 0
      · rw [if_pos h2]
        simp only [isSuccess]
        constructor
        · intro h; exact absurd h (by simp)
        · rintro ⟨-, -, h3⟩; omega
      · rw [if_neg h2]
        simp only [isSuccess]
        constructor
        · intro _; exact ⟨h1.1, h1.2, by omega⟩
        · intro _; trivial
    · rw [if_pos h1]
      simp only [isSuccess]
      constructor
      · intro h; exact absurd h (by simp)
      · rintro ⟨ha, hb, -⟩; exact absurd ⟨ha, hb⟩ h1
  · intro p b r c hdvd
    have h2 : b.length % 2 = 0 := by obtain ⟨k, hk⟩ := hdvd; omega
    simp only [NoiseReductionProcessor.process]
    by_cases hen : p.enabled = true
    · rw [if_pos hen]
      obtain ⟨mtx, hmtx⟩ := bytes_to_numpy_ok b (orDefault c 1) h2
      rw [hmtx]
      split
      · rename_i e heq
        exact absurd heq (by simp)
      · rename_i m heq
        split <;> rfl
    · rw [if_neg hen]
      rfl

/-- Witness for C8: a valid config constructs; a processor carrying an invalid
strength and a non-positive rate still processes a well-formed buffer. -/
theorem noise_reduction_validation_witness :
    isSuccess (NoiseReductionProcessor.make true (1/2) 16000 2048 512) = true
    ∧ isSuccess (NoiseReductionProcessor.process ⟨true, 3/2, -1, 0, 0⟩
        [0, 0] none none) = true :=
  ⟨(noise_reduction_validation.1 true (1/2) 16000 2048 512).mpr
      ⟨by norm_num, by norm_num, by norm_num⟩,
   noise_reduction_validation.2 ⟨true, 3/2, -1, 0, 0⟩ [0, 0] none none
      ⟨1, rfl⟩⟩

/-- C10: an enabled `NoiseReductionStage` preserves the byte length of every
mono 16-bit buffer of even length; and a signal with no more samples than the
smoothing window `max(3, int(sample_rate * 0.001))` skips the smoothing step
entirely — the masked signal is returned as-is at full length. -/
theorem noise_reduction_preserves_length :
    (∀ (p : NoiseReductionProcessor) (b : Bytes) (r : Option Int),
      p.enabled = true → 2 ∣ b.length →
      (p.process b r (some 1)).map List.length = .ok b.length)
    ∧ ∀ (p : NoiseReductionProcessor) (x : List ℝ),
        x.length ≤ smoothingWindow p → p._apply_smoothing x = x := by
  constructor
  · intro p b r hen hdvd
    have h2 : b.length % 2 = 0 := by obtain ⟨k, hk⟩ := hdvd; omega
    have hch : ¬ (1 : Int) < orDefault (some 1) 1 := by simp [orDefault]
    simp only [NoiseReductionProcessor.process, if_pos hen]
    rw [bytes_to_numpy_mono_spec b _ hch h2]
    simp only [SampleMatrix.isMulti, Bool.false_eq_true, false_and, if_false,
      Except.map]
    rw [encodeInt16Samples_length, List.length_map,
      apply_noise_reduction_length, List.length_map,
      decodeInt16Samples_length]
    have : 2 * (b.length / 2) = b.length := by omega
    rw [this]
  · intro p x hle
    simp only [NoiseReductionProcessor._apply_smoothing, if_pos hle]

/-- Witness for C10 at a concrete enabled processor, a 4-byte mono buffer and
a one-sample signal against the 16-sample window. -/
theorem noise_reduction_preserves_length_witness :
    ((NoiseReductionProcessor.process ⟨true, 1/2, 16000, 2048, 512⟩
        [0, 0, 0, 0] none (some 1)).map List.length = .ok 4)
    ∧ NoiseReductionProcessor._apply_smoothing ⟨true, 1/2, 16000, 2048, 512⟩
        [(1 : ℝ)] = [(1 : ℝ)] :=
  ⟨noise_reduction_preserves_length.1 ⟨true, 1/2, 16000, 2048, 512⟩
      [0, 0, 0, 0] none rfl ⟨2, rfl⟩,
   noise_reduction_preserves_length.2 ⟨true, 1/2, 16000, 2048, 512⟩ [(1 : ℝ)]
      (by norm_num [smoothingWindow, truncQ])⟩

end ASRHub
